import Mathlib

/-!
Shallow embedding of the sng-lsp-server core (src/parser.rs, src/ast.rs,
src/grammar.rs, src/file_utilities.rs, src/language_types.rs) and proofs
about it.  Rust strings are modelled as lists of characters; the nom
combinators used by the source are modelled with nom's distinction between
recoverable errors (`Err::Error`) and fatal errors (`Err::Failure`).
Rust panics (`todo!`, `unwrap` on `None`, `assert!`, out-of-bounds slices)
are modelled as an explicit `panic` outcome, never as a Lean error.
-/

namespace SngLsp

/-- Model of Rust `&str` / `String`: a list of characters. -/
abbrev Str := List Char

/-- Coercion helper from Lean string literals to the `Str` model. -/
def str (s : String) : Str := s.data

/-- Model of Rust `str::contains` for a pattern string: some contiguous
substring of `hay` equals `pat`. -/
def containsSub : Str → Str → Bool
  | [], pat => pat.isEmpty
  | h :: t, pat => pat.isPrefixOf (h :: t) || containsSub t pat

/-- Model of Rust `str::lines`: split on newline characters; a trailing
newline does not produce a final empty line; a trailing carriage return is
stripped from each line. -/
def splitNl : Str → List Str
  | [] => [[]]
  | c :: t =>
    match splitNl t with
    | [] => []
    | l :: ls => if c = '\n' then [] :: l :: ls else (c :: l) :: ls

/-- Strip one trailing carriage return, as Rust `str::lines` does. -/
def stripCr (l : Str) : Str := if l.getLast? = some '\r' then l.dropLast else l

/-- Model of Rust `str::lines().collect()`. -/
def linesOf (s : Str) : List Str :=
  let parts := splitNl s
  let parts := if parts.getLast? = some [] then parts.dropLast else parts
  parts.map stripCr

/-- Model of Rust `str::trim` (ASCII-ish whitespace on both ends). -/
def trimStr (s : Str) : Str :=
  ((s.dropWhile Char.isWhitespace).reverse.dropWhile Char.isWhitespace).reverse

/-- Last index of a character, model of Rust `str::rfind(char)`. -/
def rfindChar (s : Str) (c : Char) : Option Nat :=
  match (s.reverse.findIdx? (· = c)) with
  | none => none
  | some i => some (s.length - 1 - i)

/-- First index of a character, model of Rust `str::find(char)`. -/
def findChar (s : Str) (c : Char) : Option Nat := s.findIdx? (· = c)

/-! ## nom model

The source uses nom's streaming-free (complete) string parsers.  An
`IResult<&str, T>` is either `Ok((rest, value))` or `Err(Err::Error(e))`
(recoverable: `alt`/`opt`/`many0` try the next alternative) or
`Err(Err::Failure(e))` (fatal: aborts the whole alternation). -/

/-- nom `ErrorKind` values that the modelled combinators produce. -/
inductive ErrKind where
  | tag | alt | digit | alpha | alphaNumeric | grammarNot
  | separatedList | separatedNonEmptyList | fail | eof | float
  | many0 | many1 | isNot
  deriving DecidableEq, Repr

/-- nom `error::Error`: the remaining input paired with an error kind. -/
structure NError where
  input : Str
  kind : ErrKind
  deriving DecidableEq, Repr

/-- nom `Err`: recoverable `Error` versus fatal `Failure`. -/
inductive NErr where
  | error (e : NError)
  | failure (e : NError)
  deriving DecidableEq, Repr

/-- nom `IResult<&str, α>`. -/
abbrev PRes (α : Type) := Except NErr (Str × α)

/-- nom `tag`: exact prefix match. -/
def tagP (t : Str) : Str → PRes Str := fun input =>
  if t.isPrefixOf input then .ok (input.drop t.length, t)
  else .error (.error ⟨input, .tag⟩)

/-- nom `take_while1`-style worker used for `digit1`, `alpha1`,
`alphanumeric1`, `is_not`: one or more characters satisfying `p`. -/
def takeWhile1P (p : Char → Bool) (k : ErrKind) : Str → PRes Str := fun input =>
  let m := input.takeWhile p
  if m.isEmpty then .error (.error ⟨input, k⟩) else .ok (input.drop m.length, m)

/-- nom `digit1`. -/
def digit1 : Str → PRes Str := takeWhile1P Char.isDigit .digit

/-- nom `alpha1`. -/
def alpha1 : Str → PRes Str := takeWhile1P Char.isAlpha .alpha

/-- nom `alphanumeric1`. -/
def alphanumeric1 : Str → PRes Str := takeWhile1P Char.isAlphanum .alphaNumeric

/-- nom multispace characters: space, tab, carriage return, newline. -/
def isMultispace (c : Char) : Bool := c = ' ' || c = '\t' || c = '\r' || c = '\n'

/-- nom `multispace0`: zero or more whitespace characters, never fails. -/
def multispace0 : Str → PRes Str := fun input =>
  let m := input.takeWhile isMultispace
  .ok (input.drop m.length, m)

/-- nom `take_till`: zero or more characters until `p` holds, never fails. -/
def takeTillP (p : Char → Bool) : Str → PRes Str := fun input =>
  let m := input.takeWhile (fun c => !p c)
  .ok (input.drop m.length, m)

/-- nom `is_not`: one or more characters outside the given set. -/
def isNotP (set : Str) : Str → PRes Str :=
  takeWhile1P (fun c => !set.contains c) .isNot

/-- Sequencing of nom parser results, the model of Rust `?` on `IResult`:
both `Error` and `Failure` propagate unchanged. -/
def pseq (x : PRes α) (f : Str → α → PRes β) : PRes β :=
  match x with
  | .ok (i, v) => f i v
  | .error e => .error e

/-- nom `delimited`. -/
def delimitedP (a : Str → PRes α) (b : Str → PRes β) (c : Str → PRes γ) :
    Str → PRes β := fun input =>
  pseq (a input) fun i1 _ =>
  pseq (b i1) fun i2 v =>
  pseq (c i2) fun i3 _ => .ok (i3, v)

/-- nom `terminated`. -/
def terminatedP (a : Str → PRes α) (b : Str → PRes β) : Str → PRes α :=
  fun input =>
    pseq (a input) fun i1 v =>
    pseq (b i1) fun i2 _ => .ok (i2, v)

/-- nom `pair`. -/
def pairP (a : Str → PRes α) (b : Str → PRes β) : Str → PRes (α × β) :=
  fun input =>
    pseq (a input) fun i1 v1 =>
    pseq (b i1) fun i2 v2 => .ok (i2, (v1, v2))

/-- nom `recognize`: run the inner parser and return the consumed input. -/
def recognizeP (p : Str → PRes α) : Str → PRes Str := fun input =>
  match p input with
  | .ok (rest, _) => .ok (rest, input.take (input.length - rest.length))
  | .error e => .error e

/-- nom `opt`: recoverable errors become `none`; failures propagate. -/
def optP (p : Str → PRes α) : Str → PRes (Option α) := fun input =>
  match p input with
  | .ok (i, v) => .ok (i, some v)
  | .error (.error _) => .ok (input, none)
  | .error (.failure e) => .error (.failure e)

/-- nom `peek`: run the parser without consuming input. -/
def peekP (p : Str → PRes α) : Str → PRes α := fun input =>
  match p input with
  | .ok (_, v) => .ok (input, v)
  | .error e => .error e

/-- nom `combinator::not`: succeeds when the inner parser returns a
recoverable error; failures propagate. -/
def notP (p : Str → PRes α) : Str → PRes Unit := fun input =>
  match p input with
  | .ok _ => .error (.error ⟨input, .grammarNot⟩)
  | .error (.error _) => .ok (input, ())
  | .error (.failure e) => .error (.failure e)

/-- nom `alt` over a list of alternatives: recoverable errors move on to
the next alternative, failures abort the whole alternation, and the error
of the last alternative is reported when all of them fail. -/
def altP (ps : List (Str → PRes α)) : Str → PRes α := fun input =>
  match ps with
  | [] => .error (.error ⟨input, .alt⟩)
  | p :: rest =>
    match p input with
    | .ok r => .ok r
    | .error (.failure e) => .error (.failure e)
    | .error (.error e) =>
      match rest with
      | [] => .error (.error e)
      | _ => altP rest input

/-- Worker loop for `many0`: fuelled by the input length, which strictly
decreases because nom rejects a non-consuming iteration (`ErrorKind::Many0`),
so the zero-fuel branch is unreachable. -/
def many0Go (p : Str → PRes α) : Nat → Str → List α → PRes (List α)
  | 0, i, acc => .ok (i, acc.reverse)
  | fuel + 1, i, acc =>
    match p i with
    | .error (.error _) => .ok (i, acc.reverse)
    | .error (.failure e) => .error (.failure e)
    | .ok (i2, v) =>
      if i2.length < i.length then many0Go p fuel i2 (v :: acc)
      else .error (.error ⟨i, .many0⟩)

/-- nom `many0`. -/
def many0P (p : Str → PRes α) : Str → PRes (List α) := fun input =>
  many0Go p (input.length + 1) input []

/-- nom `many0_count`. -/
def many0CountP (p : Str → PRes α) : Str → PRes Nat := fun input =>
  match many0P p input with
  | .ok (i, l) => .ok (i, l.length)
  | .error e => .error e

/-- nom `many1`: the first element is mandatory, then a `many0`-style loop. -/
def many1P (p : Str → PRes α) : Str → PRes (List α) := fun input =>
  match p input with
  | .error e => .error e
  | .ok (i2, v) => many0Go p (i2.length + 1) i2 [v]

/-- Worker loop for `separated_list1`, fuelled like `many0Go`. -/
def sepListGo (sep : Str → PRes β) (elem : Str → PRes α) :
    Nat → Str → List α → PRes (List α)
  | 0, i, acc => .ok (i, acc.reverse)
  | fuel + 1, i, acc =>
    match sep i with
    | .error (.error _) => .ok (i, acc.reverse)
    | .error (.failure e) => .error (.failure e)
    | .ok (i1, _) =>
      match elem i1 with
      | .error (.error _) => .ok (i, acc.reverse)
      | .error (.failure e) => .error (.failure e)
      | .ok (i2, v) =>
        if i2.length < i.length then sepListGo sep elem fuel i2 (v :: acc)
        else .error (.error ⟨i2, .separatedList⟩)

/-- nom `separated_list1`. -/
def separatedList1P (sep : Str → PRes β) (elem : Str → PRes α) :
    Str → PRes (List α) := fun input =>
  match elem input with
  | .error e => .error e
  | .ok (i, v) => sepListGo sep elem (i.length + 1) i [v]

/-- nom `ws` recipe from the source: surrounding whitespace is consumed. -/
def wsP (p : Str → PRes α) : Str → PRes α :=
  delimitedP multispace0 p multispace0

/-! The float recognizer backing nom's `double`.  Only its acceptance
behaviour on claim-relevant inputs matters (all of them make it fail on a
non-numeric first character); the recognized text is returned. -/

/-- Grammar of a float literal as recognized by nom's `double`: optional
sign, then either digits with an optional fraction or a leading dot with
mandatory digits, then an optional exponent. -/
def recognizeFloat : Str → PRes Str :=
  recognizeP (fun input =>
    pseq (optP (altP [tagP (str "+"), tagP (str "-")]) input) fun i1 _ =>
    pseq (altP
      [ (fun i =>
          pseq (digit1 i) fun j1 _ =>
          pseq (optP (pairP (tagP (str ".")) (optP digit1)) j1) fun j2 _ =>
            .ok (j2, ())),
        (fun i =>
          pseq (pairP (tagP (str ".")) digit1 i) fun j1 _ =>
            .ok (j1, ())) ] i1) fun i2 _ =>
    pseq (optP (fun i =>
      pseq (altP [tagP (str "e"), tagP (str "E")] i) fun j1 _ =>
      pseq (optP (altP [tagP (str "+"), tagP (str "-")]) j1) fun j2 _ =>
      pseq (digit1 j2) fun j3 _ => .ok (j3, ())) i2) fun i3 _ =>
      .ok (i3, ()))

/-- Display of the parsed `f64`.  Exact IEEE-754 parsing and Rust's `f64`
`Display` formatting are floating-point behaviour that no claim depends on
(every claim-relevant input fails `recognizeFloat` outright), so the
recognized literal text is carried through unchanged. -/
def rustF64ToString (recognized : Str) : Str := recognized

/-- nom `double`, modelled at the level of the recognized literal. -/
def doubleP : Str → PRes Str := recognizeFloat

/-! ## Value grammar (src/parser.rs) -/

/-- The `ValueTypes` enum of src/parser.rs.  Rust `usize` is modelled as
`Nat`; overflow of `str::parse::<usize>` is modelled in `parseUsize`. -/
inductive ValueTypes where
  | Empty
  | YesNo (b : Bool)
  | PositiveInteger (n : Nat)
  | NonNegativeInteger (n : Nat)
  | StringOrNumber (s : Str)
  | Path (s : Str)
  | String (s : Str)
  | StringList (l : List Str)
  | InnerBlock (p : Str × List ValueTypes)
  | Identifier (s : Str)

/-- Numeric value of a digit string. -/
def natOfDigits (ds : Str) : Nat :=
  ds.foldl (fun a c => a * 10 + (c.toNat - 48)) 0

/-- Model of Rust `str::parse::<usize>` on an all-digit string: succeeds
unless the value overflows a 64-bit machine word. -/
def parseUsize (ds : Str) : Option Nat :=
  let n := natOfDigits ds
  if n < 2 ^ 64 then some n else none

/-- `parse_value_yesno` from src/parser.rs. -/
def parse_value_yesno : Str → PRes ValueTypes := fun input =>
  match alphanumeric1 input with
  | .error e => .error e
  | .ok (i, yesno) =>
    if yesno = str "1" ∨ yesno = str "yes" ∨ yesno = str "on" then
      .ok (i, .YesNo true)
    else if yesno = str "0" ∨ yesno = str "no" ∨ yesno = str "off" then
      .ok (i, .YesNo false)
    else
      .error (.error ⟨i, .alt⟩)

/-- `parse_value_positive_integer` from src/parser.rs: on the value 0 the
source constructs `nom::Err::Failure` (fatal), on overflow `nom::Err::Error`
(recoverable). -/
def parse_value_positive_integer : Str → PRes ValueTypes := fun input =>
  match digit1 input with
  | .error e => .error e
  | .ok (i, posInt) =>
    match parseUsize posInt with
    | some n =>
      if n > 0 then .ok (i, .PositiveInteger n)
      else .error (.failure ⟨i, .digit⟩)
    | none => .error (.error ⟨i, .digit⟩)

/-- `parse_value_non_negative_integer` from src/parser.rs: the source
wraps the parsed value in `ValueTypes::PositiveInteger`, not in
`ValueTypes::NonNegativeInteger`. -/
def parse_value_non_negative_integer : Str → PRes ValueTypes := fun input =>
  match digit1 input with
  | .error e => .error e
  | .ok (i, posInt) =>
    match parseUsize posInt with
    | some n => .ok (i, .PositiveInteger n)
    | none => .error (.error ⟨i, .digit⟩)

/-- `parse_value_string_or_number` from src/parser.rs. -/
def parse_value_string_or_number : Str → PRes ValueTypes := fun input =>
  match altP [delimitedP (tagP (str "\"")) doubleP (tagP (str "\"")), doubleP] input with
  | .ok (i, d) => .ok (i, .StringOrNumber (rustF64ToString d))
  | .error e => .error e

/-- `parse_value_string` from src/parser.rs: any inner error is replaced
by a recoverable `ErrorKind::Not` error on the original input. -/
def parse_value_string : Str → PRes ValueTypes := fun input =>
  match delimitedP (tagP (str "\""))
      (takeTillP (fun c => c == ':' || c == '\"')) (tagP (str "\"")) input with
  | .ok (i, s) => .ok (i, .String s)
  | .error _ => .error (.error ⟨input, .grammarNot⟩)

/-- `parse_value_identifier` from src/parser.rs. -/
def parse_value_identifier : Str → PRes ValueTypes := fun input =>
  match recognizeP (pairP
      (altP [wsP alpha1, wsP (tagP (str "_"))])
      (many0CountP (altP [wsP alphanumeric1, wsP (tagP (str "_"))]))) input with
  | .ok (i, identifier) => .ok (i, .Identifier identifier)
  | .error _ => .error (.error ⟨input, .grammarNot⟩)

/-- `parse_value_string_list` from src/parser.rs. -/
def parse_value_string_list : Str → PRes ValueTypes := fun input =>
  match separatedList1P (tagP (str ":")) (isNotP (str ":")) input with
  | .ok (i, l) => .ok (i, .StringList l)
  | .error _ => .error (.error ⟨input, .separatedNonEmptyList⟩)

/-- `parse_value` from src/parser.rs: the ordered alternation of the value
recognizers. -/
def parse_value : Str → PRes ValueTypes :=
  altP
    [ parse_value_yesno,
      parse_value_positive_integer,
      parse_value_non_negative_integer,
      parse_value_string_or_number,
      parse_value_string,
      parse_value_string_list,
      parse_value_identifier ]

/-! ## Object model (src/language_types.rs) -/

/-- The `ObjectKind` enum of src/language_types.rs. -/
inductive ObjectKind where
  | Source | Destination | Log | Filter | Parser | RewriteRule | Template
  deriving DecidableEq, Repr

/-- The `Parameter` struct of src/language_types.rs. -/
structure Parameter where
  option_name : Str
  value_type : ValueTypes

/-- Association-list model of Rust's `HashMap<String, V>`: at most one
entry per key.  Iteration order of the Rust hash map is unspecified; the
model keeps insertion order, which no claim depends on. -/
abbrev HMap (α : Type) := List (Str × α)

/-- Model of `HashMap::insert`: replace the value of an existing key in
place, otherwise append the new entry. -/
def hmInsert (m : HMap α) (k : Str) (v : α) : HMap α :=
  match m with
  | [] => [(k, v)]
  | (k', v') :: t => if k' = k then (k', v) :: t else (k', v') :: hmInsert t k v

/-- Model of `HashMap::get`. -/
def hmGet (m : HMap α) (k : Str) : Option α :=
  match m with
  | [] => none
  | (k', v) :: t => if k' = k then some v else hmGet t k

/-- Number of entries a map holds under one key. -/
def hmCountKey (m : HMap α) (k : Str) : Nat :=
  m.countP (fun e => e.1 == k)

/-- The `Driver` struct of src/language_types.rs. -/
structure Driver where
  name : Str
  required_options : List ValueTypes
  options : HMap Parameter

/-- `parse_driver_option` from src/parser.rs: `<option_name>(<arg>)`. -/
def parse_driver_option : Str → PRes Parameter := fun input =>
  pseq (takeTillP (fun c => c == '(' || c.isWhitespace) input) fun i1 option_name =>
  pseq (delimitedP (wsP (tagP (str "("))) parse_value (wsP (tagP (str ")"))) i1)
    fun i2 option_value =>
  .ok (i2, Parameter.mk option_name option_value)

/-- `parse_positional_options` from src/parser.rs. -/
def parse_positional_options : Str → PRes (List ValueTypes) := fun input =>
  pseq (many0P (altP
    [ wsP parse_value_string,
      terminatedP (wsP parse_value_identifier)
        (peekP (notP (wsP (tagP (str "("))))) ]) input) fun i pos_opts =>
  pseq (peekP (notP (wsP (tagP (str "(")))) i) fun _ _ =>
  .ok (i, pos_opts)

/-- The `options_map` construction inside `parse_driver`: the parsed named
options are inserted into a fresh hash map in source order. -/
def buildOptionsMap (options : Option (List Parameter)) : HMap Parameter :=
  match options with
  | none => []
  | some ps => ps.foldl (fun m p => hmInsert m p.option_name p) []

/-- The stages of `parse_driver` up to and including the named-option
list: driver name, opening parenthesis, positional values, then the
optional `many1` of named options. -/
def parse_driver_stages : Str → PRes (Str × List ValueTypes × Option (List Parameter)) :=
  fun input =>
  pseq (takeTillP (fun c => c == '(' || c.isWhitespace) input) fun i1 driver_name =>
  pseq (wsP (tagP (str "(")) i1) fun i2 _ =>
  pseq (parse_positional_options i2) fun i3 required_options =>
  pseq (optP (many1P (terminatedP (wsP parse_driver_option)
      (optP (tagP (str ","))))) i3) fun i4 options =>
  .ok (i4, (driver_name, required_options, options))

/-- `parse_driver` from src/parser.rs: the stages above, then the closing
`);`, returning a `Driver` whose option map is built by `buildOptionsMap`. -/
def parse_driver : Str → PRes Driver := fun input =>
  pseq (parse_driver_stages input) fun i4 st =>
  pseq (wsP (tagP (str ");")) i4) fun i5 _ =>
  .ok (i5, Driver.mk st.1 st.2.1 (buildOptionsMap st.2.2))

/-- The named-option occurrences of a driver body in source order, as
parsed by the stages of `parse_driver` (empty when the option stage parsed
nothing). -/
def parse_driver_option_occurrences (input : Str) : Option (List Parameter) :=
  match parse_driver_stages input with
  | .ok (_, (_, _, opts)) => some (opts.getD [])
  | .error _ => none

/-! ## LSP diagnostics model (the fields of `lsp_types` the core uses) -/

/-- `lsp_types::Position`: zero-based line and character (Rust `u32`,
modelled as `Nat`). -/
structure Position where
  line : Nat
  character : Nat
  deriving DecidableEq, Repr

/-- The derived lexicographic `PartialOrd` of `lsp_types::Position`,
restricted to `<=` (which is total here). -/
def posLe (a b : Position) : Bool :=
  a.line < b.line || (a.line = b.line && a.character ≤ b.character)

/-- `lsp_types::Range`: start and end position (the Rust field is named
`end`, a Lean keyword, so it is called `stop` here). -/
structure Range where
  start : Position
  stop : Position
  deriving DecidableEq, Repr

/-- `DiagnosticSeverity`; the core only ever constructs `ERROR`. -/
inductive Severity where
  | error | warning | information | hint
  deriving DecidableEq, Repr

/-- `lsp_types::Diagnostic`, restricted to the fields the core sets via
`Diagnostic::new(range, severity, code, source, message, related, tags)`;
`code`, `related_information` and `tags` are always `None` in the source
and are omitted. -/
structure Diagnostic where
  range : Range
  severity : Option Severity
  source : Option Str
  message : Str
  deriving DecidableEq, Repr

/-- Outcome of running a Rust computation that can return, return an
error, or panic (`todo!`, `unwrap`, `assert!`, slice out of bounds). -/
inductive ROut (ε α : Type) where
  | ok (a : α)
  | err (e : ε)
  | panic
  deriving DecidableEq, Repr

/-- Outcome of a Rust computation that can only return or panic. -/
inductive RVal (α : Type) where
  | ok (a : α)
  | panic
  deriving DecidableEq, Repr

/-! ## Snippets and include resolution (src/ast.rs) -/

/-- The `Snippet` struct of src/ast.rs.  `snippet_uri` is the uri string
of the `TextDocumentIdentifier`; `depth` (`u8`) is modelled as `Nat`. -/
inductive Snippet where
  | mk (content : Str) (include_range : Range) (snippet_uri : Str)
      (diagnostics : List Diagnostic)
      (included_snippets : Option (List Snippet))
      (resolved_content : Str) (depth : Nat)

/-- Accessor for the snippet's raw content. -/
def Snippet.content : Snippet → Str
  | .mk c _ _ _ _ _ _ => c

/-- Accessor for the source range of the include directive. -/
def Snippet.include_range : Snippet → Range
  | .mk _ r _ _ _ _ _ => r

/-- Accessor for the snippet's uri. -/
def Snippet.snippet_uri : Snippet → Str
  | .mk _ _ u _ _ _ _ => u

/-- Accessor for the snippet's accumulated diagnostics. -/
def Snippet.diagnostics : Snippet → List Diagnostic
  | .mk _ _ _ d _ _ _ => d

/-- Accessor for the snippet's direct includes. -/
def Snippet.included_snippets : Snippet → Option (List Snippet)
  | .mk _ _ _ _ i _ _ => i

/-- Accessor for the snippet's merged content. -/
def Snippet.resolved_content : Snippet → Str
  | .mk _ _ _ _ _ r _ => r

/-- Accessor for the snippet's depth counter. -/
def Snippet.depth : Snippet → Nat
  | .mk _ _ _ _ _ _ d => d

/-- `self.diagnostics.push(diag)`. -/
def Snippet.pushDiag : Snippet → Diagnostic → Snippet
  | .mk c r u ds i res d, diag => .mk c r u (ds ++ [diag]) i res d

/-- Replacement of the `included_snippets` field. -/
def Snippet.withIncluded : Snippet → Option (List Snippet) → Snippet
  | .mk c r u ds _ res d, i => .mk c r u ds i res d

/-- Assignment `self.resolved_content = merged_content`. -/
def Snippet.withResolved : Snippet → Str → Snippet
  | .mk c r u ds i _ d, res => .mk c r u ds i res d

/-- `Snippet::has_includes`: the raw content contains `@include`. -/
def Snippet.hasIncludes (s : Snippet) : Bool :=
  containsSub s.content (str "@include")

/-- `Snippet::get_whole_content_range`. -/
def Snippet.wholeContentRange (s : Snippet) : Range :=
  ⟨⟨0, 0⟩, ⟨(linesOf s.content).length + 1, 0⟩⟩

/-- Worker for `Snippet::get_range_by_pattern`: scan the lines in order
for one containing the pattern. -/
def rangeByPatternGo (pat : Str) : List Str → Nat → Option Range
  | [], _ => none
  | l :: rest, startingLine =>
    if containsSub l pat then
      some ⟨⟨startingLine, 0⟩, ⟨startingLine + 1, 0⟩⟩
    else rangeByPatternGo pat rest (startingLine + 1)

/-- `Snippet::get_range_by_pattern`. -/
def Snippet.getRangeByPattern (s : Snippet) (pat : Str) : Option Range :=
  rangeByPatternGo pat (linesOf s.content) 0

/-- The diagnostic source string used by src/ast.rs. -/
def lspSource : Str := str "syslog-ng LSP server"

/-- The formatted include-limit message of `Snippet::check_possible_errors`
with `MAX_DEPTH = 15` substituted. -/
def includeLimitMsg : Str :=
  str "Include limit (15) has been reached, diagnostics might be unreliable. Make sure there are no circular @include directives"

/-- The depth-exceeded diagnostic of `Snippet::check_possible_errors`. -/
def depthDiag (s : Snippet) : Diagnostic :=
  ⟨s.wholeContentRange, some .error, some lspSource, includeLimitMsg⟩

/-- The forbidden-`@version` diagnostic of `Snippet::check_possible_errors`. -/
def versionDiag (r : Range) : Diagnostic :=
  ⟨r, some .error, some lspSource, str "Snippets can not contain @version"⟩

/-- `Snippet::check_possible_errors`: depth ceiling first (`MAX_DEPTH = 15`),
then the forbidden `@version` check. -/
def Snippet.checkPossibleErrors (s : Snippet) (depth : Nat) : Option Diagnostic :=
  if depth > 15 then some (depthDiag s)
  else
    match s.getRangeByPattern (str "@version") with
    | some versionRange => some (versionDiag versionRange)
    | none => none

/-- The child-fault diagnostic `resolve_include` reports to the includer:
`Diagnostic::new(snippet.include_range, ERROR, None, None, msg, None, None)`.
The message is `format!("Included file {:#?} has errors in it", uri)`; the
exact Rust pretty-debug rendering of the uri is not load-bearing for any
claim and is modelled as the uri itself spliced into the text. -/
def includedFileDiag (child : Snippet) : Diagnostic :=
  ⟨child.include_range, some .error, none,
    str "Included file " ++ child.snippet_uri ++ str " has errors in it"⟩

/-- Lexicographic character-list order, the model of the `Ord` instance
`Snippet` derives from its uri (`self.snippet_uri.uri.cmp(...)`). -/
def strLt : Str → Str → Bool
  | [], [] => false
  | [], _ :: _ => true
  | _ :: _, [] => false
  | a :: s, b :: t => a < b || (a = b && strLt s t)

/-- Stable insertion of a snippet into a uri-sorted list: the new element
goes after existing elements with an equal key, as a stable sort does. -/
def insertSnippetSorted (x : Snippet) : List Snippet → List Snippet
  | [] => [x]
  | y :: t => if strLt x.snippet_uri y.snippet_uri then x :: y :: t
              else y :: insertSnippetSorted x t

/-- Model of `included_snippets.sort()` (a stable sort by the derived
`Ord`, i.e. by uri). -/
def sortSnippets (l : List Snippet) : List Snippet :=
  l.foldr insertSnippetSorted []

/-- The child loop of `resolve_include`: resolve each child in order,
concatenating merged content; on the first child error, stop and report
the `includedFileDiag` fault at the include site.  The resolver argument
is the recursive call at depth + 1. -/
def resolveChildrenGo (resolver : Snippet → ROut Diagnostic Str × Snippet) :
    List Snippet → Str → ROut Diagnostic Str × List Snippet
  | [], acc => (.ok acc, [])
  | c :: rest, acc =>
    match resolver c with
    | (.ok sub, c') =>
      match resolveChildrenGo resolver rest (acc ++ sub) with
      | (r, rest') => (r, c' :: rest')
    | (.err _, c') => (.err (includedFileDiag c'), c' :: rest)
    | (.panic, c') => (.panic, c' :: rest)

/-- `Snippet::resolve_include` from src/ast.rs, returning the Rust outcome
paired with the mutated snippet.  The source recurses on the sorted child
list with `depth + 1`; recursion only happens when `check_possible_errors`
passed, i.e. when `depth <= 15`, so the recursion depth is bounded and the
definition is fuelled with any fuel of at least 17 (`resolveInclude` below
passes 17); the zero-fuel branch is unreachable.  The function ends in
`todo!()` on every path that gets past the child merge, which panics. -/
def resolveIncludeFuel : Nat → Snippet → Nat → ROut Diagnostic Str × Snippet
  | 0, s, _ => (.panic, s)
  | fuel + 1, s, depth =>
    match s.checkPossibleErrors depth with
    | some diag => (.err diag, s.pushDiag diag)
    | none =>
      if s.hasIncludes then
        match s.included_snippets with
        | none => (.panic, s)
        | some children =>
          let sorted := sortSnippets children
          match resolveChildrenGo (fun c => resolveIncludeFuel fuel c (depth + 1))
              sorted [] with
          | (.ok merged, children') =>
            (.panic, ((s.withIncluded (some children')).withResolved merged))
          | (.err d, children') => (.err d, s.withIncluded (some children'))
          | (.panic, children') => (.panic, s.withIncluded (some children'))
      else
        (.panic, s.withResolved [])

/-- `Snippet::resolve_include` with the fuel instantiated (17 suffices for
every starting depth, see `resolveIncludeFuel`). -/
def Snippet.resolveInclude (s : Snippet) (depth : Nat) :
    ROut Diagnostic Str × Snippet :=
  resolveIncludeFuel 17 s depth

/-! ## Grammar database (src/grammar.rs)

The `serde_json::Value` loaded from the bundled database.  The source
reads it from a process-wide `OnceCell`; following the design note of the
spec it is modelled as an explicit value passed to the lookups. -/

/-- Model of `serde_json::Value`. -/
inductive Json where
  | null
  | bool (b : Bool)
  | num (n : Int)
  | jstr (s : Str)
  | arr (xs : List Json)
  | obj (kvs : List (Str × Json))

/-- `Value::as_object`. -/
def Json.asObject : Json → Option (List (Str × Json))
  | .obj kvs => some kvs
  | _ => none

/-- `Value::as_array`. -/
def Json.asArray : Json → Option (List Json)
  | .arr xs => some xs
  | _ => none

/-- `Value::as_str`. -/
def Json.asStr : Json → Option Str
  | .jstr s => some s
  | _ => none

/-- `Map::get` on a JSON object. -/
def jGet (kvs : List (Str × Json)) (k : Str) : Option Json :=
  match kvs with
  | [] => none
  | (k', v) :: t => if k' = k then some v else jGet t k

/-- `grammar_get_root_level_keywords` from src/grammar.rs. -/
def grammar_get_root_level_keywords : List Str :=
  [str "source", str "filter", str "parser", str "rewrite",
   str "destination", str "log", str "junction"]

/-- Model of Rust `str::split_once`: split at the first occurrence of the
character, returning the parts before and after it. -/
def splitOnce (s : Str) (c : Char) : Option (Str × Str) :=
  match findChar s c with
  | none => none
  | some i => some (s.take i, s.drop (i + 1))

/-- `remove_surronding_quotes` from src/grammar.rs (name as in the
source).  The `assert!` that the quotes sit at both ends, and the slice
`&inp[1..len-1]`, can panic. -/
def remove_surronding_quotes (inp : Str) : RVal Str :=
  match findChar inp '\"', rfindChar inp '\"' with
  | some leftQuoteInd, some rightQuoteInd =>
    if leftQuoteInd = 0 ∧ rightQuoteInd = inp.length - 1 then
      if inp ≠ str "\"\"" then
        if 1 ≤ inp.length - 1 then .ok ((inp.drop 1).dropLast)
        else .panic
      else .ok inp
    else .panic
  | _, _ => .ok inp

/-- The option-building loop of `grammar_get_all_options`: each entry of
the options array is `[name_or_alias_list, [type_hint, ...]]`; a missing
type hint skips the entry, a malformed entry aborts the lookup with
`None`. -/
def ggaoLoop : List Json → HMap Str → RVal (Option (HMap Str))
  | [], acc => .ok (some acc)
  | kvArr :: rest, acc =>
    match kvArr.asArray with
    | none => .ok none
    | some a0 =>
      match (a0.get? 0).bind Json.asStr with
      | none => .ok none
      | some currentOption0 =>
        let currentOption :=
          match splitOnce currentOption0 '/' with
          | some (firstAlias, _) => firstAlias
          | none => currentOption0
        match kvArr.asArray with
        | none => .ok none
        | some a1 =>
          match a1.get? 1 with
          | none => .ok none
          | some j1 =>
            match j1.asArray with
            | none => .ok none
            | some tyArr =>
              match tyArr.get? 0 with
              | none => ggaoLoop rest acc
              | some v =>
                match v.asStr with
                | none => .ok none
                | some optionType =>
                  match remove_surronding_quotes currentOption with
                  | .panic => .panic
                  | .ok key =>
                    match remove_surronding_quotes optionType with
                    | .panic => .panic
                    | .ok ty =>
                      ggaoLoop rest
                        (hmInsert acc key (str "(" ++ ty ++ str ")"))

/-- `grammar_get_all_options` from src/grammar.rs.  Every `?` on an absent
key or wrong JSON shape yields `None`.  When an inner block is supplied,
the source descends `blocks -> "key"` — the literal string `"key"`, not
the supplied block name (`inner_block_name` is bound but unused in the
source). -/
def grammar_get_all_options (db : Json) (object_type driver : Str)
    (inner_block : Option Str) : RVal (Option (HMap Str)) :=
  match db.asObject with
  | none => .ok none
  | some options =>
    match (jGet options object_type).bind Json.asObject with
    | none => .ok none
    | some objectOptions0 =>
      match (jGet objectOptions0 driver).bind Json.asObject with
      | none => .ok none
      | some objectOptions =>
        let optionsArray : Option (List Json) :=
          match inner_block with
          | some _ =>
            ((((((jGet objectOptions (str "blocks")).bind
              Json.asObject).bind (fun o => jGet o (str "key"))).bind
              Json.asObject).bind (fun o => jGet o (str "options"))).bind
              Json.asArray)
          | none => (jGet objectOptions (str "options")).bind Json.asArray
        match optionsArray with
        | none => .ok none
        | some arr => ggaoLoop arr []

/-! ## File utilities (src/file_utilities.rs)

The functions below read file contents; the text source collaborator is
modelled as a map from uri/path to content. -/

/-- A file system snapshot: `get_contents` succeeds exactly on mapped
paths. -/
abbrev FileMap := Str → Option Str

/-- The characters of a line up to and including the first `(`, the model
of `read_until(b'(')`; without a `(` the whole line is returned. -/
def readUntilParen : Str → Str
  | [] => []
  | c :: t => if c = '(' then [c] else c :: readUntilParen t

/-- `get_block_by_position` from src/file_utilities.rs, model over a
`FileMap`.  A missing file leaves the buffer empty (`if let Ok` falls
through to `None`); a line number past the end of the file panics
(`.nth(...).unwrap()`). -/
def get_block_by_position (fs : FileMap) (path : Str) (line_num : Nat) :
    RVal (Option Str) :=
  match fs path with
  | none => .ok none
  | some contents =>
    match (linesOf contents).get? line_num with
    | none => .panic
    | some line =>
      let buf := readUntilParen line
      match buf.getLast? with
      | some '(' => .ok (some (trimStr buf.dropLast))
      | _ => .ok none

/-- Concatenation of the first `line_num + 1` lines without separators,
as the `while` loop of `get_driver_before_position` builds it. -/
def joinLines (ls : List Str) : Str := ls.foldr (· ++ ·) []

/-- `get_driver_before_position` from src/file_utilities.rs, model over a
`FileMap`.  A missing file panics (`get_contents(...).unwrap()`); running
out of lines returns `None` (the `?` on `lines.next()`); a `{` after the
last `(` makes the slice `[brace_pos+1..paren_pos]` panic. -/
def get_driver_before_position (fs : FileMap) (path : Str) (line_num : Nat) :
    RVal (Option Str) :=
  match fs path with
  | none => .panic
  | some contents =>
    let ls := linesOf contents
    if ls.length < line_num + 1 then .ok none
    else
      let contentsBeforePos := joinLines (ls.take (line_num + 1))
      match rfindChar contentsBeforePos '{', rfindChar contentsBeforePos '(' with
      | some bracePos, some parenPos =>
        if bracePos + 1 ≤ parenPos then
          .ok (some (trimStr
            ((contentsBeforePos.drop (bracePos + 1)).take (parenPos - (bracePos + 1)))))
        else .panic
      | _, _ => .ok none

/-! ## Context & completion engine (src/ast.rs) -/

/-- The `Object` struct of src/language_types.rs; the location pairs the
document uri with the recorded range. -/
structure Object where
  id : Str
  kind : ObjectKind
  drivers : List Driver
  location : Option (Str × Range)

/-- The `Context` enum of src/ast.rs. -/
inductive Context where
  | Root | Source | Destination | Log | Filter | Parser | RewriteRule | Template
  deriving DecidableEq, Repr

/-- The `From<&ObjectKind> for Context` conversion of src/ast.rs. -/
def contextFromKind : ObjectKind → Context
  | .Source => .Source
  | .Destination => .Destination
  | .Log => .Log
  | .Filter => .Filter
  | .Parser => .Parser
  | .RewriteRule => .RewriteRule
  | .Template => .Template

/-- The cursor of a completion request: uri and position of
`CompletionParams::text_document_position`. -/
structure CompletionParams where
  uri : Str
  position : Position
  deriving DecidableEq, Repr

/-- `CompletionItem::new_simple(label, detail)`. -/
structure CompletionItem where
  label : Str
  detail : Str
  deriving DecidableEq, Repr

/-- `CompletionResponse::Array`. -/
inductive CompletionResponse where
  | array (items : List CompletionItem)
  deriving DecidableEq, Repr

/-- `Object::is_inside_document_position`: panics when the object has no
recorded location (`self.location.as_ref().unwrap()`); otherwise uri
equality plus inclusive position-range containment. -/
def is_inside_document_position (o : Object) (p : CompletionParams) : RVal Bool :=
  match o.location with
  | none => .panic
  | some (selfUri, selfRange) =>
    .ok (p.uri == selfUri && posLe selfRange.start p.position
          && posLe p.position selfRange.stop)

/-- The object scan of `get_context`: the first object containing the
cursor decides the context, otherwise the context is `Root`. -/
def getContextGo (objs : List Object) (p : CompletionParams) : RVal Context :=
  match objs with
  | [] => .ok .Root
  | o :: rest =>
    match is_inside_document_position o p with
    | .panic => .panic
    | .ok true => .ok (contextFromKind o.kind)
    | .ok false => getContextGo rest p

/-- The `VersionAnnotation` struct (u8 fields modelled as `Nat`). -/
structure VersionAnn where
  major_version : Nat
  minor_version : Nat
  deriving DecidableEq, Repr

/-- The `GlobalOption` struct of src/language_types.rs. -/
structure GlobalOption where
  name : Str

/-- The `SyslogNgConfiguration` aggregate of src/ast.rs. -/
structure SyslogNgConfiguration where
  configuration : Str
  version : VersionAnn
  includes : List Str
  snippets : List (Str × Snippet)
  workspace_folder : Option Str
  is_valid : Bool
  global_options : List GlobalOption
  objects : List Object
  diagnostics : List (Str × Diagnostic)

/-- `get_context` from src/ast.rs. -/
def get_context (conf : SyslogNgConfiguration) (p : CompletionParams) :
    RVal Context :=
  getContextGo conf.objects p

/-- The non-root tail of `get_code_completion`: resolve the enclosing
driver and inner block from the document text, then query the grammar
database; an unresolved driver or an absent schema entry yields `None`. -/
def get_code_completion_non_root (db : Json) (fs : FileMap)
    (object_type : Str) (p : CompletionParams) :
    RVal (Option CompletionResponse) :=
  match get_driver_before_position fs p.uri p.position.line with
  | .panic => .panic
  | .ok driver? =>
    match get_block_by_position fs p.uri p.position.line with
    | .panic => .panic
    | .ok inner_block =>
      match driver? with
      | some driver =>
        match grammar_get_all_options db object_type driver inner_block with
        | .panic => .panic
        | .ok none => .ok none
        | .ok (some m) =>
          .ok (some (.array (m.map (fun e => CompletionItem.mk e.1 e.2))))
      | none => .ok none

/-- `get_code_completion` from src/ast.rs.  `Root` context answers with
the fixed root-level keywords; `Source`/`Destination`/`Parser` proceed to
the schema lookup; the `Log`, `Filter`, `RewriteRule` and `Template` arms
are `todo!()` in the source, which panics. -/
def get_code_completion (db : Json) (fs : FileMap)
    (conf : SyslogNgConfiguration) (p : CompletionParams) :
    RVal (Option CompletionResponse) :=
  match get_context conf p with
  | .panic => .panic
  | .ok ctx =>
    match ctx with
    | .Root =>
      .ok (some (.array (grammar_get_root_level_keywords.map
        (fun kw => CompletionItem.mk kw kw))))
    | .Source => get_code_completion_non_root db fs (str "source") p
    | .Destination => get_code_completion_non_root db fs (str "destination") p
    | .Parser => get_code_completion_non_root db fs (str "parser") p
    | .Log => .panic
    | .Filter => .panic
    | .RewriteRule => .panic
    | .Template => .panic

/-- `try_parse_configuration` from src/parser.rs: its body is entirely
commented out in the source and it returns `()` without touching the
configuration. -/
def try_parse_configuration (_input : Str) (conf : SyslogNgConfiguration) :
    SyslogNgConfiguration :=
  conf

/-- `add_configuration` from src/ast.rs: only applied when the text
contains `@version`; it appends the text to the stored configuration and
runs `try_parse_configuration` on a read-only clone. -/
def add_configuration (conf : SyslogNgConfiguration) (text : Str) :
    SyslogNgConfiguration :=
  if containsSub text (str "@version") then
    let conf' := { conf with configuration := conf.configuration ++ text }
    try_parse_configuration conf'.configuration conf'
  else
    conf

/-! ## Helper lemmas -/

/-- Unfolding equation of `hmInsert` on a cons cell. -/
theorem hmInsert_cons (k' : Str) (v' : α) (t : HMap α) (k : Str) (v : α) :
    hmInsert ((k', v') :: t) k v =
      if k' = k then (k', v) :: t else (k', v') :: hmInsert t k v := rfl

/-- Unfolding equation of `hmGet` on a cons cell. -/
theorem hmGet_cons (k' : Str) (v : α) (t : HMap α) (name : Str) :
    hmGet ((k', v) :: t) name = if k' = name then some v else hmGet t name := rfl

/-- Lookup after insertion: the inserted key now maps to the new value,
every other key is untouched. -/
theorem hmGet_hmInsert (m : HMap α) (k : Str) (v : α) (name : Str) :
    hmGet (hmInsert m k v) name = if k = name then some v else hmGet m name := by
  induction m with
  | nil => simp [hmInsert, hmGet]
  | cons e t ih =>
    obtain ⟨k', v'⟩ := e
    by_cases hk : k' = k
    · subst hk
      rw [hmInsert_cons, if_pos rfl, hmGet_cons, hmGet_cons]
      by_cases hn : k' = name
      · simp [hn]
      · simp [hn]
    · rw [hmInsert_cons, if_neg hk, hmGet_cons, hmGet_cons, ih]
      by_cases hn : k' = name
      · have hkn : k ≠ name := fun h => hk (hn.trans h.symm)
        simp [hn, hkn]
      · simp [hn]

/-- `find?` over an appended list tries the left part first. -/
theorem find?_append_first (l1 l2 : List α) (f : α → Bool) :
    (l1 ++ l2).find? f =
      match l1.find? f with
      | some x => some x
      | none => l2.find? f := by
  induction l1 with
  | nil => simp
  | cons a t ih =>
    cases hfa : f a with
    | true => simp [List.find?_cons, hfa]
    | false => simp [List.find?_cons, hfa, ih]

/-- The predicate matching a parameter name. -/
def pnameIs (name : Str) : Parameter → Bool := fun p => p.option_name == name

/-- Folding `hmInsert` over a parameter list: the final binding of a name
is its last occurrence, falling back to the initial map. -/
theorem hmGet_foldl_insert (ps : List Parameter) (m : HMap Parameter) (name : Str) :
    hmGet (ps.foldl (fun m p => hmInsert m p.option_name p) m) name =
      match ps.reverse.find? (pnameIs name) with
      | some p => some p
      | none => hmGet m name := by
  induction ps generalizing m with
  | nil => simp
  | cons p t ih =>
    simp only [List.foldl_cons, List.reverse_cons, find?_append_first, ih]
    cases hf : t.reverse.find? (pnameIs name) with
    | some q => simp
    | none =>
      cases hb : pnameIs name p with
      | true =>
        have hpn : p.option_name = name := by
          rw [pnameIs] at hb
          exact beq_iff_eq.mp hb
        simp [List.find?, pnameIs, hb, hmGet_hmInsert, hpn]
      | false =>
        have hpn : p.option_name ≠ name := by
          intro hcon
          rw [pnameIs] at hb
          rw [hcon] at hb
          simp at hb
        simp [List.find?, hb, hmGet_hmInsert, hpn]

/-- Key uniqueness of a hash-map model. -/
def HMapUK (m : HMap α) : Prop := m.Pairwise (fun a b => a.1 ≠ b.1)

/-- Keys of an insertion come from the map or are the inserted key. -/
theorem key_mem_hmInsert (m : HMap α) (k : Str) (v : α) :
    ∀ e ∈ hmInsert m k v, e.1 ∈ m.map Prod.fst ∨ e.1 = k := by
  induction m with
  | nil =>
    intro e he
    rw [hmInsert] at he
    rcases List.mem_singleton.mp he with h
    subst h
    right; rfl
  | cons e0 t ih =>
    obtain ⟨k', v'⟩ := e0
    intro e he
    by_cases hk : k' = k
    · subst hk
      rw [hmInsert_cons, if_pos rfl] at he
      rcases List.mem_cons.mp he with h | h
      · subst h; right; rfl
      · left
        rw [List.map_cons]
        exact List.mem_cons_of_mem _ (List.mem_map_of_mem Prod.fst h)
    · rw [hmInsert_cons, if_neg hk] at he
      rcases List.mem_cons.mp he with h | h
      · subst h
        left
        rw [List.map_cons]
        exact List.mem_cons_self _ _
      · rcases ih e h with h' | h'
        · left
          rw [List.map_cons]
          exact List.mem_cons_of_mem _ h'
        · right; exact h'

/-- Insertion preserves key uniqueness. -/
theorem HMapUK_hmInsert (m : HMap α) (k : Str) (v : α) (h : HMapUK m) :
    HMapUK (hmInsert m k v) := by
  induction m with
  | nil =>
    rw [hmInsert]
    exact List.Pairwise.cons (by intro b hb; cases hb) List.Pairwise.nil
  | cons e0 t ih =>
    obtain ⟨k', v'⟩ := e0
    rw [HMapUK, List.pairwise_cons] at h
    obtain ⟨h1, h2⟩ := h
    by_cases hk : k' = k
    · subst hk
      rw [HMapUK, hmInsert_cons, if_pos rfl, List.pairwise_cons]
      exact ⟨h1, h2⟩
    · rw [HMapUK, hmInsert_cons, if_neg hk, List.pairwise_cons]
      constructor
      · intro e he
        rcases key_mem_hmInsert t k v e he with hmem | hek
        · rcases List.mem_map.mp hmem with ⟨b, hb, hb1⟩
          rw [← hb1]
          exact h1 b hb
        · rw [hek]; exact hk
      · exact ih h2

/-- In a key-unique map, the multiplicity of a key is determined by
whether lookup finds it. -/
theorem hmCountKey_of_UK (m : HMap α) (name : Str) (h : HMapUK m) :
    hmCountKey m name = if (hmGet m name).isSome then 1 else 0 := by
  induction m with
  | nil => simp [hmCountKey, hmGet]
  | cons e0 t ih =>
    obtain ⟨k', v⟩ := e0
    rw [HMapUK, List.pairwise_cons] at h
    obtain ⟨h1, h2⟩ := h
    by_cases hn : k' = name
    · subst hn
      have hzero : List.countP (fun e => e.1 == k') t = 0 := by
        rw [List.countP_eq_zero]
        intro e he
        have hne := h1 e he
        simp only [beq_iff_eq]
        intro hcon
        exact hne hcon.symm
      rw [hmCountKey, List.countP_cons, hmGet_cons, if_pos rfl]
      simp [hzero]
    · have hb : ((k', v).1 == name) = false := by
        simp [hn]
      rw [hmCountKey, List.countP_cons, hmGet_cons, if_neg hn, hb]
      rw [hmCountKey] at ih
      simp [ih h2]

/-- `buildOptionsMap` always yields a key-unique map. -/
theorem HMapUK_buildOptionsMap (options : Option (List Parameter)) :
    HMapUK (buildOptionsMap options) := by
  cases options with
  | none => exact List.Pairwise.nil
  | some ps =>
    rw [buildOptionsMap]
    have hstep : ∀ m : HMap Parameter, HMapUK m →
        HMapUK (ps.foldl (fun m p => hmInsert m p.option_name p) m) := by
      induction ps with
      | nil => intro m hm; simpa
      | cons p t ih =>
        intro m hm
        rw [List.foldl_cons]
        exact ih _ (HMapUK_hmInsert m p.option_name p hm)
    exact hstep [] List.Pairwise.nil

/-- The object scan of `get_context` lands in `Root` when the cursor is
outside every object's recorded range. -/
theorem getContextGo_of_outside (p : CompletionParams) :
    ∀ objs, (∀ o ∈ objs, is_inside_document_position o p = .ok false) →
      getContextGo objs p = .ok .Root := by
  intro objs h
  induction objs with
  | nil => simp [getContextGo]
  | cons o rest ih =>
    have ho := h o (by simp)
    rw [getContextGo, ho]
    exact ih (fun o' ho' => h o' (by simp [ho']))

/-- Unfolding step of the fuelled resolver when the error check fires. -/
theorem resolveIncludeFuel_check (fuel : Nat) (s : Snippet) (depth : Nat)
    (diag : Diagnostic) (h : s.checkPossibleErrors depth = some diag) :
    resolveIncludeFuel (fuel + 1) s depth = (.err diag, s.pushDiag diag) := by
  simp [resolveIncludeFuel, h]

/-! ## Claim theorems -/

/-- C1: the claim says no core operation terminates the hosting process;
in the source, `resolve_include` ends in `todo!()` on its success path
(after a snippet without includes, or after all children merged), and the
`Log`, `Filter`, `RewriteRule` and `Template` arms of
`get_code_completion` are `todo!()` — both panic.  This theorem evaluates
both operations at inputs that reach those stubs: a well-formed snippet
with no errors, and a completion request whose cursor sits inside a `Log`
object's recorded range. -/
theorem core_todo_paths_panic :
    (Snippet.resolveInclude
        (.mk (str "foo bar") ⟨⟨0, 0⟩, ⟨1, 0⟩⟩ (str "file:///snippet.conf") [] none [] 0)
        0).1 = ROut.panic
    ∧ get_code_completion Json.null (fun _ => none)
        ⟨[], ⟨0, 0⟩, [], [], none, false, [],
          [⟨[], .Log, [], some (str "file:///a.conf", ⟨⟨0, 0⟩, ⟨2, 0⟩⟩)⟩], []⟩
        ⟨str "file:///a.conf", ⟨1, 0⟩⟩ = RVal.panic :=
  ⟨rfl, rfl⟩

/-- C2: the claim says the lookup descends into the supplied inner block's
nested schema; in the source the `blocks` object is indexed with the
literal string `"key"` instead of the supplied name.  With a database that
declares a block named `myblock` carrying option `opt1`, the lookup with
inner block `myblock` returns `None`, even though descending into the
`myblock` schema (second conjunct, running the option loop on its options
array) would surface `opt1`. -/
theorem inner_block_lookup_ignores_block_name :
    grammar_get_all_options
      (.obj [(str "source", .obj [(str "mydrv", .obj
        [ (str "options", .arr []),
          (str "blocks", .obj [(str "myblock", .obj
            [(str "options", .arr
              [.arr [.jstr (str "opt1"), .arr [.jstr (str "string")]]])])])])])])
      (str "source") (str "mydrv") (some (str "myblock")) = .ok none
    ∧ ggaoLoop [.arr [.jstr (str "opt1"), .arr [.jstr (str "string")]]] []
        = .ok (some [(str "opt1", str "(string)")]) :=
  ⟨rfl, rfl⟩

/-- C3: the claim says `parse_value_non_negative_integer` on the digit
string `0` yields the `NonNegativeInteger` variant carrying 0; the source
constructs `ValueTypes::PositiveInteger(0)` instead (and the two variants
are distinct). -/
theorem nonneg_recognizer_zero_yields_positive_variant :
    parse_value_non_negative_integer (str "0") = .ok ([], .PositiveInteger 0)
    ∧ ValueTypes.NonNegativeInteger 0 ≠ ValueTypes.PositiveInteger 0 :=
  ⟨rfl, fun h => ValueTypes.noConfusion h⟩

/-- C4: when the cursor is outside the recorded range of every object of
the configuration, `get_code_completion` answers with exactly the seven
fixed root-level keywords, each as a completion item labelled by itself. -/
theorem root_context_completion_exact_keywords (db : Json) (fs : FileMap)
    (conf : SyslogNgConfiguration) (p : CompletionParams)
    (h : ∀ o ∈ conf.objects, is_inside_document_position o p = .ok false) :
    get_code_completion db fs conf p =
      .ok (some (.array
        [ ⟨str "source", str "source"⟩, ⟨str "filter", str "filter"⟩,
          ⟨str "parser", str "parser"⟩, ⟨str "rewrite", str "rewrite"⟩,
          ⟨str "destination", str "destination"⟩, ⟨str "log", str "log"⟩,
          ⟨str "junction", str "junction"⟩ ])) := by
  have hctx : get_context conf p = .ok .Root := getContextGo_of_outside p conf.objects h
  simp [get_code_completion, hctx, grammar_get_root_level_keywords]

/-- Witness for C4 at a concrete empty configuration and cursor. -/
theorem root_context_completion_exact_keywords_witness :
    (∀ o ∈ (SyslogNgConfiguration.mk [] ⟨0, 0⟩ [] [] none false [] [] []).objects,
      is_inside_document_position o ⟨str "file:///a.conf", ⟨0, 0⟩⟩ = .ok false)
    ∧ get_code_completion Json.null (fun _ => none)
        (SyslogNgConfiguration.mk [] ⟨0, 0⟩ [] [] none false [] [] [])
        ⟨str "file:///a.conf", ⟨0, 0⟩⟩ =
      .ok (some (.array
        [ ⟨str "source", str "source"⟩, ⟨str "filter", str "filter"⟩,
          ⟨str "parser", str "parser"⟩, ⟨str "rewrite", str "rewrite"⟩,
          ⟨str "destination", str "destination"⟩, ⟨str "log", str "log"⟩,
          ⟨str "junction", str "junction"⟩ ])) :=
  ⟨by simp, root_context_completion_exact_keywords Json.null (fun _ => none)
    (SyslogNgConfiguration.mk [] ⟨0, 0⟩ [] [] none false [] [] [])
    ⟨str "file:///a.conf", ⟨0, 0⟩⟩ (by simp)⟩

/-- C5: at any resolution depth beyond the fixed ceiling 15,
`resolve_include` immediately faults: exactly the depth-exceeded
diagnostic is appended (the snippet is otherwise untouched — no recursion
into its children), the diagnostic is returned as the error, and its
message cites the ceiling value 15. -/
theorem depth_exceeded_single_diagnostic (s : Snippet) (depth : Nat)
    (h : depth > 15) :
    s.resolveInclude depth = (.err (depthDiag s), s.pushDiag (depthDiag s))
    ∧ containsSub (depthDiag s).message (str "15") = true := by
  constructor
  · have hc : s.checkPossibleErrors depth = some (depthDiag s) := by
      simp [Snippet.checkPossibleErrors, h]
    show resolveIncludeFuel (16 + 1) s depth = _
    exact resolveIncludeFuel_check 16 s depth (depthDiag s) hc
  · show containsSub includeLimitMsg (str "15") = true
    decide

/-- Witness for C5: a 16th-level snippet (depth 16) faults at once. -/
theorem depth_exceeded_single_diagnostic_witness :
    16 > 15
    ∧ (Snippet.resolveInclude
          (.mk (str "a\n") ⟨⟨0, 0⟩, ⟨1, 0⟩⟩ (str "file:///deep.conf") [] none [] 0) 16 =
        (.err (depthDiag (.mk (str "a\n") ⟨⟨0, 0⟩, ⟨1, 0⟩⟩ (str "file:///deep.conf") [] none [] 0)),
          (Snippet.mk (str "a\n") ⟨⟨0, 0⟩, ⟨1, 0⟩⟩ (str "file:///deep.conf") [] none [] 0).pushDiag
            (depthDiag (.mk (str "a\n") ⟨⟨0, 0⟩, ⟨1, 0⟩⟩ (str "file:///deep.conf") [] none [] 0)))
        ∧ containsSub (depthDiag (.mk (str "a\n") ⟨⟨0, 0⟩, ⟨1, 0⟩⟩ (str "file:///deep.conf") [] none [] 0)).message
            (str "15") = true) :=
  ⟨by decide,
    depth_exceeded_single_diagnostic
      (.mk (str "a\n") ⟨⟨0, 0⟩, ⟨1, 0⟩⟩ (str "file:///deep.conf") [] none [] 0) 16
      (by decide)⟩

/-- C6: an included snippet whose content has a line containing
`@version` never resolves to `Ok`: `resolve_include` returns an error
diagnostic at every depth, and below the depth ceiling that diagnostic is
precisely the forbidden-`@version` one, appended to the snippet. -/
theorem version_in_snippet_faults (s : Snippet) (depth : Nat) (rng : Range)
    (h : s.getRangeByPattern (str "@version") = some rng) :
    (∃ d s', s.resolveInclude depth = (.err d, s'))
    ∧ (depth ≤ 15 →
        s.resolveInclude depth =
          (.err (versionDiag rng), s.pushDiag (versionDiag rng))) := by
  by_cases hd : depth > 15
  · constructor
    · refine ⟨depthDiag s, s.pushDiag (depthDiag s), ?_⟩
      have hc : s.checkPossibleErrors depth = some (depthDiag s) := by
        simp [Snippet.checkPossibleErrors, hd]
      show resolveIncludeFuel (16 + 1) s depth = _
      exact resolveIncludeFuel_check 16 s depth (depthDiag s) hc
    · intro hle; omega
  · have hc : s.checkPossibleErrors depth = some (versionDiag rng) := by
      simp [Snippet.checkPossibleErrors, hd, h]
    have hres : s.resolveInclude depth =
        (.err (versionDiag rng), s.pushDiag (versionDiag rng)) := by
      show resolveIncludeFuel (16 + 1) s depth = _
      exact resolveIncludeFuel_check 16 s depth (versionDiag rng) hc
    exact ⟨⟨versionDiag rng, s.pushDiag (versionDiag rng), hres⟩, fun _ => hres⟩

/-- Witness for C6: a snippet containing a `@version` line at depth 0. -/
theorem version_in_snippet_faults_witness :
    (Snippet.mk (str "x\n@version: 3.0\n") ⟨⟨0, 0⟩, ⟨1, 0⟩⟩ (str "file:///v.conf") [] none [] 0).getRangeByPattern
        (str "@version") = some ⟨⟨1, 0⟩, ⟨2, 0⟩⟩
    ∧ ((∃ d s', (Snippet.mk (str "x\n@version: 3.0\n") ⟨⟨0, 0⟩, ⟨1, 0⟩⟩ (str "file:///v.conf") [] none [] 0).resolveInclude
          0 = (.err d, s'))
      ∧ (0 ≤ 15 →
          (Snippet.mk (str "x\n@version: 3.0\n") ⟨⟨0, 0⟩, ⟨1, 0⟩⟩ (str "file:///v.conf") [] none [] 0).resolveInclude 0 =
            (.err (versionDiag ⟨⟨1, 0⟩, ⟨2, 0⟩⟩),
              (Snippet.mk (str "x\n@version: 3.0\n") ⟨⟨0, 0⟩, ⟨1, 0⟩⟩ (str "file:///v.conf") [] none [] 0).pushDiag
                (versionDiag ⟨⟨1, 0⟩, ⟨2, 0⟩⟩)))) :=
  ⟨by decide,
    version_in_snippet_faults
      (.mk (str "x\n@version: 3.0\n") ⟨⟨0, 0⟩, ⟨1, 0⟩⟩ (str "file:///v.conf") [] none [] 0) 0
      ⟨⟨1, 0⟩, ⟨2, 0⟩⟩ (by decide)⟩

/-- C7: each of the six boolean tokens is recognized by `parse_value` as
`YesNo` with the expected truth value, and a bare `10` is captured by the
integer recognizer — so neither `yes` nor `10` ever reaches the identifier
fallback. -/
theorem yesno_tokens_and_precedence :
    parse_value (str "1") = .ok ([], .YesNo true)
    ∧ parse_value (str "yes") = .ok ([], .YesNo true)
    ∧ parse_value (str "on") = .ok ([], .YesNo true)
    ∧ parse_value (str "0") = .ok ([], .YesNo false)
    ∧ parse_value (str "no") = .ok ([], .YesNo false)
    ∧ parse_value (str "off") = .ok ([], .YesNo false)
    ∧ parse_value (str "10") = .ok ([], .PositiveInteger 10) :=
  ⟨rfl, rfl, rfl, rfl, rfl, rfl, rfl⟩

/-- C8 counterexample: the claim says the zero case of the
positive-integer recognizer falls through so that later recognizers in
`parse_value`'s alternation can still be tried.  On the digit string `00`
(whose value is 0, and which the boolean recognizer rejects), the
recognizer returns a fatal `nom::Err::Failure`, and `parse_value` returns
that same failure — even though a later recognizer in the alternation
(the non-negative one, third conjunct) accepts `00`. -/
theorem positive_integer_zero_no_fallthrough_cex :
    parse_value_positive_integer (str "00") = .error (.failure ⟨[], .digit⟩)
    ∧ parse_value (str "00") = .error (.failure ⟨[], .digit⟩)
    ∧ parse_value_non_negative_integer (str "00") = .ok ([], .PositiveInteger 0) :=
  ⟨rfl, rfl, rfl⟩

/-- C8 amended: for a digit string of value `n` (fitting in a machine
word), the positive-integer recognizer yields `PositiveInteger n` when
`n > 0`; when `n = 0` it returns a fatal `Failure`, and whenever the
boolean recognizer rejected the input, `parse_value`'s alternation aborts
with that failure instead of trying later recognizers. -/
theorem positive_integer_failure_aborts_alternation (s rest ds : Str)
    (h1 : digit1 s = .ok (rest, ds)) (h2 : natOfDigits ds < 2 ^ 64) :
    (0 < natOfDigits ds →
      parse_value_positive_integer s = .ok (rest, .PositiveInteger (natOfDigits ds)))
    ∧ (natOfDigits ds = 0 →
      parse_value_positive_integer s = .error (.failure ⟨rest, .digit⟩)
      ∧ ∀ e, parse_value_yesno s = .error (.error e) →
          parse_value s = .error (.failure ⟨rest, .digit⟩)) := by
  have hpu : parseUsize ds = some (natOfDigits ds) := by
    show (if natOfDigits ds < 2 ^ 64 then some (natOfDigits ds) else none)
      = some (natOfDigits ds)
    exact if_pos h2
  constructor
  · intro hpos
    simp [parse_value_positive_integer, h1, hpu, hpos]
  · intro hz
    have hfail : parse_value_positive_integer s = .error (.failure ⟨rest, .digit⟩) := by
      simp [parse_value_positive_integer, h1, hpu, hz]
    refine ⟨hfail, ?_⟩
    intro e he
    simp [parse_value, altP, he, hfail]

/-- Witness for C8 at the digit string `00`. -/
theorem positive_integer_failure_aborts_alternation_witness :
    digit1 (str "00") = .ok ([], str "00")
    ∧ natOfDigits (str "00") < 2 ^ 64
    ∧ ((0 < natOfDigits (str "00") →
        parse_value_positive_integer (str "00") =
          .ok ([], .PositiveInteger (natOfDigits (str "00"))))
      ∧ (natOfDigits (str "00") = 0 →
        parse_value_positive_integer (str "00") = .error (.failure ⟨[], .digit⟩)
        ∧ ∀ e, parse_value_yesno (str "00") = .error (.error e) →
            parse_value (str "00") = .error (.failure ⟨[], .digit⟩))) :=
  ⟨rfl, by decide,
    positive_integer_failure_aborts_alternation (str "00") [] (str "00") rfl (by decide)⟩

/-- C9: whenever `parse_driver` succeeds, the driver's option map holds
exactly one parameter under a name that occurred (none under a name that
did not), and the binding is the last occurrence of that name in source
order among the parsed named options. -/
theorem parse_driver_last_write_wins (input rest : Str) (d : Driver) (name : Str)
    (h : parse_driver input = .ok (rest, d)) :
    hmCountKey d.options name =
      (if ((parse_driver_option_occurrences input).getD []).any (pnameIs name)
        then 1 else 0)
    ∧ hmGet d.options name =
      ((parse_driver_option_occurrences input).getD []).reverse.find? (pnameIs name) := by
  cases hst : parse_driver_stages input with
  | error e =>
    simp only [parse_driver, pseq, hst] at h
    exact Except.noConfusion h
  | ok v =>
    obtain ⟨i4, nm, req, opts⟩ := v
    cases hcl : wsP (tagP (str ");")) i4 with
    | error e2 =>
      simp only [parse_driver, pseq, hst, hcl] at h
      exact Except.noConfusion h
    | ok v2 =>
      obtain ⟨i5, u⟩ := v2
      simp only [parse_driver, pseq, hst, hcl, Except.ok.injEq, Prod.mk.injEq] at h
      obtain ⟨hrest, hd⟩ := h
      subst hd
      have hocc : parse_driver_option_occurrences input = some (opts.getD []) := by
        rw [parse_driver_option_occurrences, hst]
      rw [hocc]
      cases opts with
      | none =>
        simp [buildOptionsMap, hmCountKey, hmGet]
      | some ps =>
        simp only [Option.getD_some]
        constructor
        · rw [hmCountKey_of_UK _ name (HMapUK_buildOptionsMap (some ps))]
          rw [show buildOptionsMap (some ps)
              = ps.foldl (fun m p => hmInsert m p.option_name p) [] from rfl]
          rw [hmGet_foldl_insert]
          cases hf : ps.reverse.find? (pnameIs name) with
          | some q =>
            have hq : ps.any (pnameIs name) = true := by
              rw [List.any_eq_true]
              exact ⟨q, List.mem_reverse.mp (List.mem_of_find?_eq_some hf),
                List.find?_some hf⟩
            simp [hq]
          | none =>
            have hq : ps.any (pnameIs name) = false := by
              rw [List.any_eq_false]
              intro p hp
              have := List.find?_eq_none.mp hf p (List.mem_reverse.mpr hp)
              simpa using this
            simp [hq, hmGet]
        · rw [show buildOptionsMap (some ps)
              = ps.foldl (fun m p => hmInsert m p.option_name p) [] from rfl]
          rw [hmGet_foldl_insert]
          cases hf : ps.reverse.find? (pnameIs name) <;> simp [hmGet]

/-- Witness for C9: a driver body with the option `ip` given twice keeps
only the second binding. -/
theorem parse_driver_last_write_wins_witness :
    parse_driver (str "network(ip(\"a\") ip(\"b\"));") =
      .ok ([], Driver.mk (str "network") []
        [(str "ip", Parameter.mk (str "ip") (.String (str "b")))])
    ∧ (hmCountKey (Driver.mk (str "network") []
          [(str "ip", Parameter.mk (str "ip") (.String (str "b")))]).options (str "ip") =
        (if ((parse_driver_option_occurrences (str "network(ip(\"a\") ip(\"b\"));")).getD []).any
            (pnameIs (str "ip")) then 1 else 0)
      ∧ hmGet (Driver.mk (str "network") []
          [(str "ip", Parameter.mk (str "ip") (.String (str "b")))]).options (str "ip") =
        ((parse_driver_option_occurrences (str "network(ip(\"a\") ip(\"b\"));")).getD []).reverse.find?
          (pnameIs (str "ip"))) :=
  ⟨rfl, parse_driver_last_write_wins (str "network(ip(\"a\") ip(\"b\"));") []
    (Driver.mk (str "network") [] [(str "ip", Parameter.mk (str "ip") (.String (str "b")))])
    (str "ip") rfl⟩

/-- C10: text without `@version` leaves the configuration aggregate
completely unchanged — `add_configuration` only acts when the text
contains `@version`. -/
theorem add_configuration_no_version_frame (conf : SyslogNgConfiguration)
    (text : Str) (h : containsSub text (str "@version") = false) :
    add_configuration conf text = conf := by
  simp [add_configuration, h]

/-- Witness for C10 at a concrete configuration and text. -/
theorem add_configuration_no_version_frame_witness :
    containsSub (str "hello world") (str "@version") = false
    ∧ add_configuration (SyslogNgConfiguration.mk [] ⟨0, 0⟩ [] [] none false [] [] [])
        (str "hello world") =
      SyslogNgConfiguration.mk [] ⟨0, 0⟩ [] [] none false [] [] [] :=
  ⟨by decide,
    add_configuration_no_version_frame
      (SyslogNgConfiguration.mk [] ⟨0, 0⟩ [] [] none false [] [] [])
      (str "hello world") (by decide)⟩

end SngLsp
